import Mathlib

/-!
# Verification of the PADS SVG emitter and utility helpers

Shallow embedding of `SVG.py` and `Util.py` (D. Eppstein's PADS library).
Python complex-number points become pairs of rationals; the output stream
becomes an explicitly returned string; the mutable `nesting` counter becomes
a field of an explicit state record threaded through every call.
-/

/-- A 2-D point, embedding the Python complex numbers used by `SVG.py`
(`real` = x, `imag` = y). Coordinates are exact rationals. -/
structure Pt where
  real : ℚ
  imag : ℚ
deriving DecidableEq, Repr, Inhabited

instance : Add Pt := ⟨fun p q => ⟨p.real + q.real, p.imag + q.imag⟩⟩
instance : Sub Pt := ⟨fun p q => ⟨p.real - q.real, p.imag - q.imag⟩⟩
instance : HMul ℚ Pt Pt := ⟨fun a p => ⟨a * p.real, a * p.imag⟩⟩
instance : HDiv Pt ℚ Pt := ⟨fun p a => ⟨p.real / a, p.imag / a⟩⟩

theorem Pt.add_def (p q : Pt) : p + q = ⟨p.real + q.real, p.imag + q.imag⟩ := rfl
theorem Pt.sub_def (p q : Pt) : p - q = ⟨p.real - q.real, p.imag - q.imag⟩ := rfl
theorem Pt.smul_def (a : ℚ) (p : Pt) : a * p = ⟨a * p.real, a * p.imag⟩ := rfl
theorem Pt.div_def (p : Pt) (a : ℚ) : p / a = ⟨p.real / a, p.imag / a⟩ := rfl

/-! ## Coordinate formatting (`SVG.py`, `_coord`)

`_coord(x)` is `("%.4f" % x).rstrip("0").rstrip(".")`.  `"%.4f" % x`
renders `x` rounded to the nearest multiple of `1/10000` with exactly four
digits after the decimal point; over exact rationals this is
`round (x * 10000) / 10000` rendered as sign, integer part, `'.'`, and the
four fraction digits. -/

/-- Python `str.rstrip` with a single strippable character: remove the
longest suffix consisting of copies of `c`. -/
def rstrip (cs : List Char) (c : Char) : List Char :=
  (cs.reverse.dropWhile (fun x => x = c)).reverse

/-- Decimal digit characters of `n`, most significant first (`"%d" % n`). -/
def natChars (n : ℕ) : List Char :=
  if n = 0 then ['0'] else ((Nat.digits 10 n).map Nat.digitChar).reverse

/-- The exactly-four fraction digits of `"%.4f"`, for `f < 10000`. -/
def pad4 (f : ℕ) : List Char :=
  [Nat.digitChar (f / 1000 % 10), Nat.digitChar (f / 100 % 10),
   Nat.digitChar (f / 10 % 10), Nat.digitChar (f % 10)]

/-- `"%.4f" % x` over exact rationals: round to the nearest `1/10000`,
then render sign, integer part, `'.'`, and four fraction digits. -/
def fmt4 (x : ℚ) : List Char :=
  let n : ℤ := round (x * 10000)
  (if n < 0 then ['-'] else []) ++
    natChars (n.natAbs / 10000) ++ '.' :: pad4 (n.natAbs % 10000)

/-- `_coord(x) = ("%.4f" % x).rstrip("0").rstrip(".")` as a character list. -/
def coordChars (x : ℚ) : List Char :=
  rstrip (rstrip (fmt4 x) '0') '.'

/-- `_coord(x)` from `SVG.py` (leading underscore dropped): the string
representation of a coordinate. -/
def coord (x : ℚ) : String :=
  String.mk (coordChars x)

/-! ## Parsing decimal strings back to rationals (for the round-trip claim) -/

/-- Value of a decimal digit character. -/
def charToDigit (c : Char) : ℕ := c.toNat - '0'.toNat

/-- Value of a run of decimal digit characters, most significant first. -/
def charsToNat (cs : List Char) : ℕ :=
  cs.foldl (fun a c => 10 * a + charToDigit c) 0

/-- Parse an unsigned decimal numeral, with an optional single `'.'`
separating integer and fraction digits. -/
def parseUnsigned (cs : List Char) : ℚ :=
  let ip := cs.takeWhile (fun c => c ≠ '.')
  let fp := (cs.dropWhile (fun c => c ≠ '.')).drop 1
  (charsToNat ip : ℚ) + (charsToNat fp : ℚ) / 10 ^ fp.length

/-- Parse a decimal numeral with an optional leading `'-'`. -/
def parseDec (cs : List Char) : ℚ :=
  if cs.head? = some '-' then - parseUnsigned cs.tail else parseUnsigned cs

/-! ## The SVG emitter state (`SVG.py`, class `SVG`)

The Python object holds `self.stream`, `self.prefix`, `self.indentation`
and `self.nesting`; the stream becomes a returned output string, the rest
an explicit state record (`indent` embeds `self.indentation`, `pfx` embeds
`self.prefix` — both renamed only because of Lean lexical constraints). -/

structure SVGState where
  indent : ℕ
  pfx : String
  nesting : ℤ
deriving DecidableEq, Repr

/-- `" " * n` (Python string repetition: empty for negative `n`). -/
def spaces (n : ℤ) : String :=
  String.mk (List.replicate n.toNat ' ')

/-- A Python style dict as an insertion-ordered association list. -/
abbrev StyleDict := List (String × String)

/-- Python `k in d` for a dict: some pair carries the key. -/
def hasKey (d : StyleDict) (k : String) : Bool :=
  d.any (fun p => p.1 = k)

/-- Python `d[k]` lookup (first — with unique keys the only — match). -/
def lookupKey (k : String) : StyleDict → Option String
  | [] => none
  | kv :: rest => if kv.1 = k then some kv.2 else lookupKey k rest

/-- One step of Python `dict.update`: if the key is present, replace its
value in place (keeping its position); otherwise append the pair. -/
def dictInsert (d : StyleDict) (k v : String) : StyleDict :=
  if hasKey d k then
    d.map (fun p => if p.1 = k then (k, v) else p)
  else d ++ [(k, v)]

/-- `style = dict(style); style.update(morestyle)`: fold `dictInsert`
over the override pairs in order. -/
def dictUpdate (d more : StyleDict) : StyleDict :=
  more.foldl (fun acc kv => dictInsert acc kv.1 kv.2) d

/-- The body of the `style="..."` attribute: the source loops over the
merged dict with a `second` flag, emitting `"; "` before every pair but
the first, then `key ++ ":" ++ value`. -/
def styleBody (style : StyleDict) : String :=
  (style.foldl
    (fun acc kv => ((if acc.2 then acc.1 ++ "; " else acc.1) ++ kv.1 ++ ":" ++ kv.2, true))
    ("", false)).1

namespace SVG

/-- `SVG.element`: the single low-level primitive.  Returns the new state
and the string written to the stream. -/
def element (st : SVGState) (e : String) (delta : ℤ) (unspaced : Bool)
    (style morestyle : StyleDict) : SVGState × String :=
  let n1 : ℤ := if delta < 0 then st.nesting + delta else st.nesting
  let lead : String :=
    if 0 ≤ delta ∨ unspaced = false then spaces (st.indent + 2 * n1) ++ "<" else "<"
  let slash : String := if delta < 0 then "/" else ""
  let merged := dictUpdate style morestyle
  let styleStr : String :=
    if merged = [] then "" else " style=\"" ++ styleBody merged ++ "\""
  let n2 : ℤ := if 0 < delta then n1 + delta else n1
  let selfSlash : String := if delta = 0 then "/" else ""
  let nl : String := if delta ≤ 0 ∨ unspaced = false then "\n" else ""
  ({ st with nesting := n2 },
   lead ++ slash ++ st.pfx ++ e ++ styleStr ++ selfSlash ++ ">" ++ nl)

/-- The XML declaration and doctype written when `standalone` is set. -/
def svgHeader : String :=
  "<?xml version=\"1.0\"?>\n<!DOCTYPE svg PUBLIC \"-//W3C//DTD SVG 1.1//EN\" \n  \"http://www.w3.org/Graphics/SVG/1.1/DTD/svg11.dtd\">\n"

/-- `SVG.__init__`: set up the state (nesting starts at 0), write the
header when standalone, then open the root `svg` element. -/
def init (bbox : Pt) (standalone : Bool) (pfx : Option String) (indent : ℕ) :
    SVGState × String :=
  let pfxStr : String :=
    match pfx with
    | some p => if p ≠ "" then p ++ ":" else ""
    | none => ""
  let header := if standalone then svgHeader else ""
  let st0 : SVGState := ⟨indent, pfxStr, 0⟩
  let br := coord bbox.real
  let bi := coord bbox.imag
  let (st1, out) := element st0
    ("svg width=\"" ++ br ++ "\" height=\"" ++ bi ++ "\" viewBox=\"0 0 " ++ br ++ " " ++ bi
      ++ "\"\n     xmlns=\"http://www.w3.org/2000/svg\" version=\"1.1\"") 1 false [] []
  (st1, header ++ out)

/-- `SVG.close`: emit the closing root tag, then raise
`"SVG: Unclosed tags"` when `self.nesting` is nonzero.  The third
component is the raised error, `none` when the call succeeds. -/
def close (st : SVGState) : SVGState × String × Option String :=
  let (st1, out) := element st "svg" (-1) false [] []
  (st1, out, if st1.nesting ≠ 0 then some "SVG: Unclosed tags" else none)

/-- `SVG.group`. -/
def group (st : SVGState) (style morestyle : StyleDict) : SVGState × String :=
  element st "g" 1 false style morestyle

/-- `SVG.ungroup`. -/
def ungroup (st : SVGState) : SVGState × String :=
  element st "g" (-1) false [] []

/-- `SVG.circle`. -/
def circle (st : SVGState) (center : Pt) (radius : ℚ) (style morestyle : StyleDict) :
    SVGState × String :=
  element st
    ("circle cx=\"" ++ coord center.real ++ "\" cy=\"" ++ coord center.imag
      ++ "\" r=\"" ++ coord radius ++ "\"") 0 false style morestyle

/-- `SVG.rectangle`.  NOTE: faithful to the source, which formats
`_coord(x)` for both the `x` and the `y` attribute (the computed `y` is
never used). -/
def rectangle (st : SVGState) (p q : Pt) (style morestyle : StyleDict) :
    SVGState × String :=
  let x := min p.real q.real
  let y := min p.imag q.imag
  let width := |(p - q).real|
  let height := |(p - q).imag|
  let _ := y
  element st
    ("rect x=\"" ++ coord x ++ "\" y=\"" ++ coord x ++ "\" width=\"" ++ coord width
      ++ "\" height=\"" ++ coord height ++ "\"") 0 false style morestyle

/-- The `"x,y"` pair list used by `polygon` and `polyline`. -/
def pointList (points : List Pt) : String :=
  String.intercalate " " (points.map (fun p => coord p.real ++ "," ++ coord p.imag))

/-- `SVG.polygon`. -/
def polygon (st : SVGState) (points : List Pt) (style morestyle : StyleDict) :
    SVGState × String :=
  element st ("polygon points=\"" ++ pointList points ++ "\"") 0 false style morestyle

/-- `SVG.polyline`. -/
def polyline (st : SVGState) (points : List Pt) (style morestyle : StyleDict) :
    SVGState × String :=
  element st ("polyline points=\"" ++ pointList points ++ "\"") 0 false style morestyle

/-- The Euclidean dot product used inside `straincontrol`. -/
def dot (r s : Pt) : ℚ :=
  r.real * s.real + r.imag * s.imag

/-- `SVG.polycurve.straincontrol`: strain-optimal Hermite control points
(Yong & Cheng Theorem 2 with t0=0, t1=1), returned in Bezier form. -/
def straincontrol (q0 p0 p1 q1 : Pt) : Pt × Pt × Pt × Pt :=
  let v0 := p1 - q0
  let v1 := q1 - p0
  let d := (3 : ℚ) * (p1 - p0)
  let dv0 := dot d v0
  let dv1 := dot d v1
  let v00 := dot v0 v0
  let v01 := dot v0 v1
  let v11 := dot v1 v1
  let e := 4 * v00 * v11 - v01 ^ 2
  let a0 := (2 * dv0 * v11 - dv1 * v01) / e
  let a1 := (2 * dv1 * v00 - dv0 * v01) / e
  (p0, p0 + a0 * v0 / (3 : ℚ), p1 - a1 * v1 / (3 : ℚ), p1)

/-- The points whose coordinates `SVG.polycurve` appends to the path
data, in order: first `points[1]`, then for every `i` in
`range(1, len(points)-2)` the three control points `b, c, d` of
`straincontrol(points[i-1], points[i], points[i+1], points[i+2])`. -/
def polycurveData (points : List Pt) : List Pt :=
  points.getD 1 default ::
    (List.range' 1 (points.length - 3)).flatMap (fun i =>
      let r := straincontrol (points.getD (i - 1) default) (points.getD i default)
                             (points.getD (i + 1) default) (points.getD (i + 2) default)
      [r.2.1, r.2.2.1, r.2.2.2])

/-- `SVG.polycurve`: the path data is `M x1 y1 C` followed by the
coordinates of the control points collected in `polycurveData`. -/
def polycurve (st : SVGState) (points : List Pt) (style morestyle : StyleDict) :
    SVGState × String :=
  let pts := polycurveData points
  let data := ["M", coord pts.headI.real, coord pts.headI.imag, "C"] ++
    pts.tail.flatMap (fun q => [coord q.real, coord q.imag])
  element st ("path d=\"" ++ String.intercalate " " data ++ "\"") 0 false style morestyle

/-- `SVG.segment`. -/
def segment (st : SVGState) (p q : Pt) (style morestyle : StyleDict) :
    SVGState × String :=
  element st
    ("line x1=\"" ++ coord p.real ++ "\" y1=\"" ++ coord p.imag
      ++ "\" x2=\"" ++ coord q.real ++ "\" y2=\"" ++ coord q.imag ++ "\"")
    0 false style morestyle

/-- `SVG.arc`. -/
def arc (st : SVGState) (p q : Pt) (r : ℚ) (large : Bool) (style morestyle : StyleDict) :
    SVGState × String :=
  let largeStr : String := if large then "1" else "0"
  let rs := coord |r|
  element st
    ("path d=\"M " ++ coord p.real ++ "," ++ coord p.imag ++ " A " ++ rs ++ "," ++ rs
      ++ " 0 " ++ largeStr ++ " 0 " ++ coord q.real ++ "," ++ coord q.imag ++ "\"")
    0 false style morestyle

/-- `SVG.text`: open an unspaced inline `text` element, write the raw
label, close it unspaced. -/
def text (st : SVGState) (label : String) (location : Pt) (style morestyle : StyleDict) :
    SVGState × String :=
  let (st1, out1) := element st
    ("text x=\"" ++ coord location.real ++ "\" y=\"" ++ coord location.imag ++ "\"")
    1 true style morestyle
  let (st2, out2) := element st1 "text" (-1) true [] []
  (st2, out1 ++ label ++ out2)

end SVG

/-! ## Object-identity model for the style-argument copy (`SVG.py` 72–73)

The two statements `style = dict(style); style.update(morestyle)` read the
caller's dict, allocate a fresh copy, and mutate only the copy.  To state
that no pre-existing object is written, dict objects live in an explicit
heap (a list of dicts addressed by index); allocation appends, mutation is
`List.set`. -/

/-- The heap effect of `SVG.element` on style dicts: read the dict at
`styleRef`, allocate a fresh copy, update the copy in place with
`morestyle`.  Returns the new heap and the copy's address. -/
def elementStyleHeap (heap : List StyleDict) (styleRef : ℕ) (morestyle : StyleDict) :
    List StyleDict × ℕ :=
  let d := heap.getD styleRef []
  let copyRef := heap.length
  let heap1 := heap ++ [d]
  let heap2 := heap1.set copyRef (dictUpdate d morestyle)
  (heap2, copyRef)

/-! ## `Util.py` -/

/-- The two Python exception kinds `arbitrary_item` distinguishes. -/
inductive PyError where
  | stopIteration : PyError
  | indexError : String → PyError
deriving DecidableEq, Repr

/-- `next(iter(S))`: the first item of the iteration, or `StopIteration`
when the sequence is empty. -/
def iterNext {α : Type} (S : List α) : Except PyError α :=
  match S with
  | [] => .error .stopIteration
  | x :: _ => .ok x

/-- `Util.arbitrary_item`: try `next(iter(S))`; on `StopIteration`,
raise `IndexError("No items to select.")` instead. -/
def arbitrary_item {α : Type} (S : List α) : Except PyError α :=
  match iterNext S with
  | .error .stopIteration => .error (.indexError "No items to select.")
  | .error e => .error e
  | .ok x => .ok x

/-! ## Call sequences (for the balanced-nesting claim) -/

/-- The arguments of one `element` call. -/
structure ElemCall where
  e : String
  delta : ℤ
  unspaced : Bool
  style : StyleDict
  morestyle : StyleDict

/-- Run a sequence of `element` calls, threading the state. -/
def runCalls (st : SVGState) (cs : List ElemCall) : SVGState :=
  cs.foldl (fun s c => (SVG.element s c.e c.delta c.unspaced c.style c.morestyle).1) st

/-- The `delta` arguments of a call sequence. -/
def deltas (cs : List ElemCall) : List ℤ :=
  cs.map (fun c => c.delta)

/-- Every running total of the deltas stays nonnegative, starting from `n`. -/
def prefixOk : ℤ → List ℤ → Bool
  | _, [] => true
  | n, d :: ds => decide (0 ≤ n + d) && prefixOk (n + d) ds

/-- Proper stack nesting of a delta sequence: every open is matched by a
later close (no running total goes negative, and the total is zero). -/
def properlyNested (ds : List ℤ) : Prop :=
  prefixOk 0 ds = true ∧ ds.sum = 0

/-! ## Basic facts about `element` -/

/-- `element` changes only the nesting counter, by exactly `delta`. -/
theorem element_fst (st : SVGState) (e : String) (delta : ℤ) (unspaced : Bool)
    (style morestyle : StyleDict) :
    (SVG.element st e delta unspaced style morestyle).1
      = { st with nesting := st.nesting + delta } := by
  unfold SVG.element
  dsimp only
  congr 1
  split_ifs <;> omega

theorem runCalls_nesting (cs : List ElemCall) :
    ∀ st : SVGState, (runCalls st cs).nesting = st.nesting + (deltas cs).sum := by
  induction cs with
  | nil => intro st; simp [runCalls, deltas]
  | cons c cs ih =>
    intro st
    simp only [runCalls, List.foldl_cons] at *
    rw [ih, element_fst]
    simp [deltas]
    ring

theorem init_nesting (bbox : Pt) (standalone : Bool) (pfx : Option String) (ind : ℕ) :
    (SVG.init bbox standalone pfx ind).1.nesting = 1 := by
  simp only [SVG.init]
  rw [element_fst]
  rfl

/-- Evaluation helper: unfold `coord` once the rounded value is known. -/
theorem coord_eval (x : ℚ) (n : ℤ) (h : round (x * 10000) = n) :
    coord x = String.mk (rstrip (rstrip
      ((if n < 0 then ['-'] else []) ++
        natChars (n.natAbs / 10000) ++ '.' :: pad4 (n.natAbs % 10000)) '0') '.') := by
  simp only [coord, coordChars, fmt4, h]

/-- C7: `rectangle(p, q, style)` and `rectangle(q, p, style)` write
byte-for-byte identical output (state and string): the emitted x, y,
width and height values are symmetric in the two corners. -/
theorem rectangle_swap_eq (st : SVGState) (p q : Pt) (style morestyle : StyleDict) :
    SVG.rectangle st p q style morestyle = SVG.rectangle st q p style morestyle := by
  simp only [SVG.rectangle, Pt.sub_def]
  rw [min_comm, abs_sub_comm p.real q.real, abs_sub_comm p.imag q.imag]

/-- C1: evaluation of `rectangle` at `p = 0+1i`, `q = 2+3i`.  The emitted
`y` attribute is `"0"` (the formatted x-minimum, since the source passes
`_coord(x)` twice), although the formatted minimum of the imaginary parts
is `"1"` — the code contradicts the claimed (and documented) rectangle
geometry. -/
theorem rectangle_y_attr_eval :
    (SVG.rectangle ⟨0, "", 1⟩ ⟨0, 1⟩ ⟨2, 3⟩ [] []).2
      = "  <rect x=\"0\" y=\"0\" width=\"2\" height=\"2\"/>\n"
    ∧ coord (min (Pt.imag ⟨0, 1⟩) (Pt.imag ⟨2, 3⟩)) = "1" := by
  have e0 : coord (min ((0 : ℚ)) 2) = "0" := by
    rw [show min ((0 : ℚ)) 2 = 0 from rfl, coord_eval 0 0 (by norm_num)]
    norm_num [natChars, pad4, rstrip]; rfl
  have e1 : coord (min ((1 : ℚ)) 3) = "1" := by
    rw [show min ((1 : ℚ)) 3 = 1 from rfl, coord_eval 1 10000 (by norm_num)]
    norm_num [natChars, pad4, rstrip]; rfl
  have e2 : coord |((⟨0, 1⟩ : Pt) - ⟨2, 3⟩).real| = "2" := by
    have : |((⟨0, 1⟩ : Pt) - ⟨2, 3⟩).real| = 2 := by
      simp only [Pt.sub_def]; norm_num
    rw [this, coord_eval 2 20000 (by norm_num)]
    norm_num [natChars, pad4, rstrip]; rfl
  have e3 : coord |((⟨0, 1⟩ : Pt) - ⟨2, 3⟩).imag| = "2" := by
    have : |((⟨0, 1⟩ : Pt) - ⟨2, 3⟩).imag| = 2 := by
      simp only [Pt.sub_def]; norm_num
    rw [this, coord_eval 2 20000 (by norm_num)]
    norm_num [natChars, pad4, rstrip]; rfl
  constructor
  · simp only [SVG.rectangle]
    rw [show min ((⟨0, 1⟩ : Pt).real) ((⟨2, 3⟩ : Pt).real) = min ((0 : ℚ)) 2 from rfl,
        e0, e2, e3]
    rfl
  · rw [show min (Pt.imag ⟨0, 1⟩) (Pt.imag ⟨2, 3⟩) = min ((1 : ℚ)) 3 from rfl, e1]

/-- C8: `arbitrary_item` on an empty sequence raises
`IndexError("No items to select.")`, which is distinct from the
underlying `StopIteration` signal; on a non-empty sequence it returns
the first item of the iteration. -/
theorem arbitrary_item_spec :
    (∀ (α : Type), arbitrary_item ([] : List α)
        = .error (.indexError "No items to select.")
      ∧ arbitrary_item ([] : List α) ≠ .error .stopIteration)
    ∧ (∀ (α : Type) (x : α) (l : List α), arbitrary_item (x :: l) = .ok x) :=
  ⟨fun _ => ⟨rfl, by simp [arbitrary_item, iterNext]⟩, fun _ _ _ => rfl⟩

/-- C10: after construction the nesting counter is 1 (the open root
element); every shape-emitting operation leaves it unchanged; `group`
increments it, `ungroup` decrements it, and `close` decrements it. -/
theorem nesting_invariant :
    (∀ (bbox : Pt) (standalone : Bool) (pfx : Option String) (ind : ℕ),
      (SVG.init bbox standalone pfx ind).1.nesting = 1)
    ∧ (∀ st c r s m, (SVG.circle st c r s m).1.nesting = st.nesting)
    ∧ (∀ st p q s m, (SVG.rectangle st p q s m).1.nesting = st.nesting)
    ∧ (∀ st ps s m, (SVG.polygon st ps s m).1.nesting = st.nesting)
    ∧ (∀ st ps s m, (SVG.polyline st ps s m).1.nesting = st.nesting)
    ∧ (∀ st ps s m, (SVG.polycurve st ps s m).1.nesting = st.nesting)
    ∧ (∀ st p q s m, (SVG.segment st p q s m).1.nesting = st.nesting)
    ∧ (∀ st p q r lg s m, (SVG.arc st p q r lg s m).1.nesting = st.nesting)
    ∧ (∀ st lb loc s m, (SVG.text st lb loc s m).1.nesting = st.nesting)
    ∧ (∀ st s m, (SVG.group st s m).1.nesting = st.nesting + 1)
    ∧ (∀ st, (SVG.ungroup st).1.nesting = st.nesting - 1)
    ∧ (∀ st, (SVG.close st).1.nesting = st.nesting - 1) := by
  refine ⟨init_nesting, ?_, ?_, ?_, ?_, ?_, ?_, ?_, ?_, ?_, ?_, ?_⟩ <;>
    intros <;>
    simp [SVG.circle, SVG.rectangle, SVG.polygon, SVG.polyline, SVG.polycurve,
      SVG.segment, SVG.arc, SVG.text, SVG.group, SVG.ungroup, SVG.close,
      element_fst] <;>
    omega

/-- C2: after construction, running any sequence of `element` calls whose
deltas are properly nested and matched lets `close()` succeed; any
sequence whose deltas do not sum to zero (an extra unmatched open or
close) makes `close()` raise `"SVG: Unclosed tags"`. -/
theorem close_balance (bbox : Pt) (standalone : Bool) (pfx : Option String) (ind : ℕ)
    (cs : List ElemCall) :
    (properlyNested (deltas cs) →
      (SVG.close (runCalls (SVG.init bbox standalone pfx ind).1 cs)).2.2 = none)
    ∧ ((deltas cs).sum ≠ 0 →
      (SVG.close (runCalls (SVG.init bbox standalone pfx ind).1 cs)).2.2
        = some "SVG: Unclosed tags") := by
  have hn : (runCalls (SVG.init bbox standalone pfx ind).1 cs).nesting
      = 1 + (deltas cs).sum := by
    rw [runCalls_nesting, init_nesting]
  have hclose : ∀ st : SVGState, (SVG.close st).2.2
      = if st.nesting - 1 ≠ 0 then some "SVG: Unclosed tags" else none := by
    intro st
    simp only [SVG.close, element_fst]
    norm_num
    rw [show st.nesting + -1 = st.nesting - 1 from by ring]
  rw [hclose, hn]
  constructor
  · rintro ⟨-, hsum⟩
    simp [hsum]
  · intro hsum
    rw [if_pos (by omega)]

/-- C2 witness: a balanced group-circle-ungroup sequence closes cleanly;
a single unmatched open makes `close` raise. -/
theorem close_balance_witness :
    (SVG.close (runCalls (SVG.init ⟨100, 100⟩ true none 0).1
        [⟨"g", 1, false, [], []⟩, ⟨"c", 0, false, [], []⟩, ⟨"g", -1, false, [], []⟩])).2.2
      = none
    ∧ (SVG.close (runCalls (SVG.init ⟨100, 100⟩ true none 0).1
        [⟨"g", 1, false, [], []⟩])).2.2 = some "SVG: Unclosed tags" :=
  ⟨(close_balance ⟨100, 100⟩ true none 0 _).1 (by constructor <;> decide),
   (close_balance ⟨100, 100⟩ true none 0 _).2 (by decide)⟩

/-- C9: the `element` style-argument copy (`style = dict(style)` before
`style.update(morestyle)`) never writes any pre-existing dict object —
in particular the shared default `{}` — and the merged dict each call
works with depends only on the caller's dict contents. -/
theorem element_no_style_arg_mutation (heap : List StyleDict) (styleRef : ℕ)
    (morestyle : StyleDict) :
    (∀ i, i < heap.length →
      ((elementStyleHeap heap styleRef morestyle).1)[i]? = heap[i]?)
    ∧ ((elementStyleHeap heap styleRef morestyle).1).getD
        (elementStyleHeap heap styleRef morestyle).2 []
      = dictUpdate (heap.getD styleRef []) morestyle := by
  constructor
  · intro i hi
    simp only [elementStyleHeap]
    rw [List.getElem?_set_ne (by omega), List.getElem?_append]
    simp [hi]
  · simp only [elementStyleHeap]
    rw [List.getD_eq_getElem?_getD,
      List.getElem?_set_eq_of_lt _ (by simp)]
    rfl

/-- C9 witness: a heap holding only the shared default empty dict is
untouched by a call that merges an override pair. -/
theorem element_no_style_arg_mutation_witness :
    ((elementStyleHeap [[]] 0 [("fill", "red")]).1)[0]? = ([[]] : List StyleDict)[0]?
    ∧ ((elementStyleHeap [[]] 0 [("fill", "red")]).1).getD
        (elementStyleHeap [[]] 0 [("fill", "red")]).2 []
      = dictUpdate (([[]] : List StyleDict).getD 0 []) [("fill", "red")] :=
  ⟨(element_no_style_arg_mutation [[]] 0 [("fill", "red")]).1 0 (by decide),
   (element_no_style_arg_mutation [[]] 0 [("fill", "red")]).2⟩

theorem getLast?_cons_ne {α : Type} (a : α) (l : List α) (h : l ≠ []) :
    (a :: l).getLast? = l.getLast? := by
  cases l with
  | nil => exact absurd rfl h
  | cons b t => exact List.getLast?_cons_cons

theorem getLast?_append_ne {α : Type} (A B : List α) (h : B ≠ []) :
    (A ++ B).getLast? = B.getLast? := by
  induction A with
  | nil => rfl
  | cons a A ih =>
    rw [List.cons_append, getLast?_cons_ne a (A ++ B) (by simp [h]), ih]

theorem takeWhile_space_replicate (k : ℕ) (rest : List Char) :
    (List.replicate k ' ' ++ '<' :: rest).takeWhile (fun c => c = ' ')
      = List.replicate k ' ' := by
  induction k with
  | zero => simp [List.takeWhile_cons]
  | succ k ih => simp [List.replicate_succ, List.takeWhile_cons, ih]

/-- The characters written by one `element` call, decomposed: optional
leading spaces, `<`, optional `/`, prefix, tag body, optional style
attribute, optional self-closing `/`, `>`, optional newline. -/
theorem element_snd_data (st : SVGState) (e : String) (delta : ℤ) (unspaced : Bool)
    (style morestyle : StyleDict) :
    (SVG.element st e delta unspaced style morestyle).2.data
      = (if 0 ≤ delta ∨ unspaced = false
         then List.replicate ((st.indent : ℤ)
            + 2 * (if delta < 0 then st.nesting + delta else st.nesting)).toNat ' '
         else [])
        ++ '<' :: ((if delta < 0 then ['/'] else []) ++ st.pfx.data ++ e.data
          ++ (if dictUpdate style morestyle = [] then []
              else (" style=\"" ++ styleBody (dictUpdate style morestyle) ++ "\"").data)
          ++ (if delta = 0 then ['/'] else [])
          ++ '>' :: (if delta ≤ 0 ∨ unspaced = false then ['\n'] else [])) := by
  simp only [SVG.element]
  split_ifs <;> simp_all [spaces, String.data_append, List.append_assoc]

/-- C6 counterexample: opening a tag with `unspaced = true` and
`delta = +1` (exactly what `text` does) still receives leading
indentation — at base indentation 0 and nesting depth 1 the output is
`"  <text>"`, which starts with a space, contradicting the claim that
`unspaced` suppresses the leading whitespace. -/
theorem element_unspaced_open_indented :
    (SVG.element ⟨0, "", 1⟩ "text" 1 true [] []).2 = "  <text>"
    ∧ (SVG.element ⟨0, "", 1⟩ "text" 1 true [] []).2.data.head? = some ' ' :=
  ⟨rfl, rfl⟩

/-- C6 amended: the leading whitespace is `indentation + 2*depth` spaces
whenever `delta ≥ 0` (depth before increment) — even for unspaced tags —
or the tag is not unspaced (for closes, depth after decrement); it is
suppressed only for unspaced closes.  A trailing newline is emitted
exactly when `delta ≤ 0` or the tag is not unspaced. -/
theorem element_spacing_amended (st : SVGState) (e : String) (delta : ℤ)
    (unspaced : Bool) (style morestyle : StyleDict)
    (h1 : 0 ≤ st.nesting) (h2 : 0 ≤ st.nesting + delta) :
    ((((SVG.element st e delta unspaced style morestyle).2).data.takeWhile
        (fun c => c = ' ')).length : ℤ)
      = (if 0 ≤ delta ∨ unspaced = false
         then (st.indent : ℤ) + 2 * (if delta < 0 then st.nesting + delta else st.nesting)
         else 0)
    ∧ ((SVG.element st e delta unspaced style morestyle).2.data.getLast? = some '\n'
        ↔ (delta ≤ 0 ∨ unspaced = false)) := by
  rw [element_snd_data]
  constructor
  · by_cases hc : 0 ≤ delta ∨ unspaced = false
    · rw [if_pos hc, if_pos hc, takeWhile_space_replicate, List.length_replicate]
      have hz : 0 ≤ (if delta < 0 then st.nesting + delta else st.nesting) := by
        split_ifs <;> omega
      omega
    · rw [if_neg hc, if_neg hc, List.nil_append]
      simp [List.takeWhile_cons]
  · by_cases hn : delta ≤ 0 ∨ unspaced = false
    · rw [if_pos hn,
        getLast?_append_ne _ _ (by simp),
        getLast?_cons_ne _ _ (by simp),
        getLast?_append_ne _ _ (by simp)]
      simpa using hn
    · rw [if_neg hn,
        getLast?_append_ne _ _ (by simp),
        getLast?_cons_ne _ _ (by simp),
        getLast?_append_ne _ _ (by simp)]
      simpa using hn

/-- C6 amended witness: a non-unspaced close at depth 2 with base
indentation 3 is preceded by exactly 3 + 2·1 = 5 spaces and ends with a
newline. -/
theorem element_spacing_amended_witness :
    ((((SVG.element ⟨3, "", 2⟩ "g" (-1) false [] []).2).data.takeWhile
        (fun c => c = ' ')).length : ℤ)
      = (if 0 ≤ (-1 : ℤ) ∨ false = false
         then ((3 : ℕ) : ℤ) + 2 * (if (-1 : ℤ) < 0 then 2 + (-1) else 2)
         else 0)
    ∧ ((SVG.element ⟨3, "", 2⟩ "g" (-1) false [] []).2.data.getLast? = some '\n'
        ↔ ((-1 : ℤ) ≤ 0 ∨ false = false)) :=
  element_spacing_amended ⟨3, "", 2⟩ "g" (-1) false [] [] (by decide) (by decide)

/-! ## Style serialization and dict-merge semantics (for the style claim) -/

/-- Spec-side rendering of a style dict: `"k1:v1; k2:v2"` in encounter
order, exactly as the claim words it. -/
def renderStyleSpec : StyleDict → String
  | [] => ""
  | [kv] => kv.1 ++ ":" ++ kv.2
  | kv :: rest => kv.1 ++ ":" ++ kv.2 ++ "; " ++ renderStyleSpec rest

/-- The `"; "`-prefixed continuation of a style rendering. -/
def renderTail : StyleDict → String
  | [] => ""
  | kv :: rest => "; " ++ kv.1 ++ ":" ++ kv.2 ++ renderTail rest

theorem styleBody_foldl (l : StyleDict) (s : String) :
    (l.foldl
      (fun acc kv => ((if acc.2 then acc.1 ++ "; " else acc.1) ++ kv.1 ++ ":" ++ kv.2, true))
      (s, true)).1 = s ++ renderTail l := by
  induction l generalizing s with
  | nil => simp [renderTail]
  | cons kv rest ih =>
    simp only [List.foldl_cons, if_pos rfl, renderTail, ih]
    simp [String.append_assoc]

theorem renderStyleSpec_cons (kv : String × String) (rest : StyleDict) :
    renderStyleSpec (kv :: rest) = kv.1 ++ ":" ++ kv.2 ++ renderTail rest := by
  induction rest generalizing kv with
  | nil => simp [renderStyleSpec, renderTail]
  | cons kv2 r2 ih =>
    show kv.1 ++ ":" ++ kv.2 ++ "; " ++ renderStyleSpec (kv2 :: r2) = _
    rw [ih kv2]
    simp [renderTail, String.append_assoc]

/-- The source's `second`-flag loop renders exactly the claim's
`"k1:v1; k2:v2"` shape. -/
theorem styleBody_eq_renderStyleSpec (l : StyleDict) :
    styleBody l = renderStyleSpec l := by
  cases l with
  | nil => rfl
  | cons kv rest =>
    simp only [styleBody, List.foldl_cons, renderStyleSpec_cons]
    rw [if_neg (by simp), styleBody_foldl]
    simp [String.empty_append]

theorem lookupKey_map_replace_self (d : StyleDict) (k v : String) :
    lookupKey k (d.map (fun p => if p.1 = k then (k, v) else p))
      = (lookupKey k d).map (fun _ => v) := by
  induction d with
  | nil => rfl
  | cons kv rest ih =>
    by_cases hk : kv.1 = k
    · simp [lookupKey, hk, ih]
    · simp [lookupKey, hk, ih]

theorem lookupKey_map_replace_ne (d : StyleDict) (k v k' : String) (h : k' ≠ k) :
    lookupKey k' (d.map (fun p => if p.1 = k then (k, v) else p))
      = lookupKey k' d := by
  induction d with
  | nil => rfl
  | cons kv rest ih =>
    by_cases hk : kv.1 = k
    · have hne : ¬ kv.1 = k' := by rw [hk]; exact fun hc => h hc.symm
      simp only [List.map_cons, if_pos hk, lookupKey]
      rw [if_neg (fun hc : k = k' => h hc.symm), if_neg hne, ih]
    · simp only [List.map_cons, if_neg hk, lookupKey, ih]

theorem lookupKey_append (k : String) (d d' : StyleDict) :
    lookupKey k (d ++ d') = (lookupKey k d).or (lookupKey k d') := by
  induction d with
  | nil => simp [lookupKey]
  | cons kv rest ih =>
    by_cases hk : kv.1 = k
    · simp [lookupKey, hk]
    · simp [lookupKey, hk, ih]

theorem hasKey_iff_lookup (d : StyleDict) (k : String) :
    hasKey d k = true ↔ ∃ w, lookupKey k d = some w := by
  induction d with
  | nil => simp [hasKey, lookupKey]
  | cons kv rest ih =>
    by_cases hk : kv.1 = k
    · simp [hasKey, lookupKey, hk]
    · simp only [hasKey, List.any_cons, Bool.or_eq_true, decide_eq_true_eq, hk, false_or,
        lookupKey, if_neg hk]
      exact ih

theorem lookupKey_dictInsert_self (d : StyleDict) (k v : String) :
    lookupKey k (dictInsert d k v) = some v := by
  rw [dictInsert]
  by_cases h : hasKey d k = true
  · rw [if_pos h, lookupKey_map_replace_self]
    obtain ⟨w, hw⟩ := (hasKey_iff_lookup d k).mp h
    simp [hw]
  · rw [if_neg h, lookupKey_append]
    have hnone : lookupKey k d = none := by
      cases hl : lookupKey k d with
      | none => rfl
      | some w => exact absurd ((hasKey_iff_lookup d k).mpr ⟨w, hl⟩) h
    simp [hnone, lookupKey]

theorem lookupKey_dictInsert_ne (d : StyleDict) (k v k' : String) (h : k' ≠ k) :
    lookupKey k' (dictInsert d k v) = lookupKey k' d := by
  rw [dictInsert]
  split_ifs with hk
  · exact lookupKey_map_replace_ne d k v k' h
  · rw [lookupKey_append]
    have hone : lookupKey k' [(k, v)] = none := by
      have : ¬ k = k' := fun hc => h hc.symm
      simp [lookupKey, this]
    rw [hone, Option.or_none]

theorem keys_dictInsert (d : StyleDict) (k v : String) :
    (dictInsert d k v).map Prod.fst
      = if hasKey d k then d.map Prod.fst else d.map Prod.fst ++ [k] := by
  rw [dictInsert]
  split_ifs with h
  · rw [List.map_map]
    apply List.map_congr_left
    intro p _
    by_cases hp : p.1 = k
    · simp [hp]
    · simp [hp]
  · simp

theorem hasKey_true_iff (d : StyleDict) (k : String) :
    hasKey d k = true ↔ k ∈ d.map Prod.fst := by
  simp only [hasKey, List.any_eq_true, decide_eq_true_eq, List.mem_map]

theorem hasKey_dictInsert_ne (d : StyleDict) (k v k' : String) (h : k' ≠ k) :
    hasKey (dictInsert d k v) k' = hasKey d k' := by
  rw [Bool.eq_iff_iff, hasKey_true_iff, hasKey_true_iff, keys_dictInsert]
  split_ifs <;> simp [h]

theorem lookupKey_eq_none_of_not_mem (d : StyleDict) (k : String)
    (h : k ∉ d.map Prod.fst) : lookupKey k d = none := by
  induction d with
  | nil => rfl
  | cons kv rest ih =>
    simp only [List.map_cons, List.mem_cons, not_or] at h
    simp only [lookupKey, if_neg (fun hc : kv.1 = k => h.1 hc.symm)]
    exact ih h.2

theorem lookupKey_dictUpdate_none (more : StyleDict) :
    ∀ (d : StyleDict) (k : String), lookupKey k more = none →
      lookupKey k (dictUpdate d more) = lookupKey k d := by
  induction more with
  | nil => intro d k _; rfl
  | cons kv rest ih =>
    intro d k hk
    simp only [lookupKey] at hk
    by_cases hh : kv.1 = k
    · rw [if_pos hh] at hk; exact absurd hk (by simp)
    · rw [if_neg hh] at hk
      show lookupKey k (dictUpdate (dictInsert d kv.1 kv.2) rest) = _
      rw [ih _ k hk, lookupKey_dictInsert_ne _ _ _ _ (fun hc => hh hc.symm)]

theorem lookupKey_dictUpdate_some (more : StyleDict) :
    ∀ (d : StyleDict) (k v : String), (more.map Prod.fst).Nodup →
      lookupKey k more = some v →
      lookupKey k (dictUpdate d more) = some v := by
  induction more with
  | nil => intro d k v _ hk; exact absurd hk (by simp [lookupKey])
  | cons kv rest ih =>
    intro d k v hnd hk
    simp only [List.map_cons, List.nodup_cons] at hnd
    simp only [lookupKey] at hk
    by_cases hh : kv.1 = k
    · rw [if_pos hh] at hk
      have hrest : lookupKey k rest = none :=
        lookupKey_eq_none_of_not_mem rest k (hh ▸ hnd.1)
      show lookupKey k (dictUpdate (dictInsert d kv.1 kv.2) rest) = some v
      rw [lookupKey_dictUpdate_none rest _ k hrest, hh,
        lookupKey_dictInsert_self, hk]
    · rw [if_neg hh] at hk
      exact ih _ k v hnd.2 hk

theorem keys_dictUpdate (more : StyleDict) :
    ∀ d : StyleDict, (more.map Prod.fst).Nodup →
      (dictUpdate d more).map Prod.fst
        = d.map Prod.fst ++ (more.map Prod.fst).filter (fun k => !(hasKey d k)) := by
  induction more with
  | nil => intro d _; simp [dictUpdate]
  | cons kv rest ih =>
    intro d hnd
    simp only [List.map_cons, List.nodup_cons] at hnd
    show (dictUpdate (dictInsert d kv.1 kv.2) rest).map Prod.fst = _
    rw [ih _ hnd.2]
    have hfil : (rest.map Prod.fst).filter (fun k => !(hasKey (dictInsert d kv.1 kv.2) k))
        = (rest.map Prod.fst).filter (fun k => !(hasKey d k)) := by
      apply List.filter_congr
      intro k hkmem
      have : k ≠ kv.1 := fun hc => hnd.1 (hc ▸ hkmem)
      rw [hasKey_dictInsert_ne _ _ _ _ this]
    rw [hfil, keys_dictInsert]
    by_cases hd : hasKey d kv.1 = true
    · rw [if_pos hd]
      simp only [List.map_cons, List.filter_cons, hd]
      norm_num
    · rw [if_neg hd]
      simp only [List.map_cons, List.filter_cons]
      rw [show (hasKey d kv.1) = false from by simp_all]
      simp [List.append_assoc]

/-- C5: `element` merges the base style with the keyword overrides,
overrides winning on key collision (and untouched keys falling back to
the base), keys listed in encounter order (base keys first, then new
override keys); when the merged dict is non-empty the tag carries the
single attribute `style="k1:v1; k2:v2"`, and when it is empty no style
attribute is emitted. -/
theorem element_style_merge (st : SVGState) (e : String) (delta : ℤ) (unspaced : Bool)
    (style morestyle : StyleDict) (hm : (morestyle.map Prod.fst).Nodup) :
    ((SVG.element st e delta unspaced style morestyle).2.data
      = (if 0 ≤ delta ∨ unspaced = false
         then List.replicate ((st.indent : ℤ)
            + 2 * (if delta < 0 then st.nesting + delta else st.nesting)).toNat ' '
         else [])
        ++ '<' :: ((if delta < 0 then ['/'] else []) ++ st.pfx.data ++ e.data
          ++ (if dictUpdate style morestyle = [] then []
              else (" style=\"" ++ renderStyleSpec (dictUpdate style morestyle) ++ "\"").data)
          ++ (if delta = 0 then ['/'] else [])
          ++ '>' :: (if delta ≤ 0 ∨ unspaced = false then ['\n'] else [])))
    ∧ (∀ k v, lookupKey k morestyle = some v →
        lookupKey k (dictUpdate style morestyle) = some v)
    ∧ (∀ k, lookupKey k morestyle = none →
        lookupKey k (dictUpdate style morestyle) = lookupKey k style)
    ∧ (dictUpdate style morestyle).map Prod.fst
        = style.map Prod.fst
          ++ (morestyle.map Prod.fst).filter (fun k => !(hasKey style k)) := by
  refine ⟨?_, fun k v hk => lookupKey_dictUpdate_some morestyle style k v hm hk,
    fun k hk => lookupKey_dictUpdate_none morestyle style k hk,
    keys_dictUpdate morestyle style hm⟩
  rw [element_snd_data, styleBody_eq_renderStyleSpec]

/-- C5 witness: merging `{fill: red, stroke: blue}` with overrides
`{stroke: black, opacity: 0.5}` renders one style attribute with the
override winning and encounter order preserved. -/
theorem element_style_merge_witness :
    (SVG.element ⟨0, "", 1⟩ "g" 1 false [("fill", "red"), ("stroke", "blue")]
        [("stroke", "black"), ("opacity", "0.5")]).2
      = "  <g style=\"fill:red; stroke:black; opacity:0.5\">\n"
    ∧ lookupKey "stroke" (dictUpdate [("fill", "red"), ("stroke", "blue")]
        [("stroke", "black"), ("opacity", "0.5")]) = some "black" := by
  have h := element_style_merge ⟨0, "", 1⟩ "g" 1 false
    [("fill", "red"), ("stroke", "blue")] [("stroke", "black"), ("opacity", "0.5")]
    (by decide)
  exact ⟨by apply String.ext; rw [h.1]; rfl,
    h.2.1 "stroke" "black" (by decide)⟩

/-! ## The strain-minimizing control points (for the polycurve claim) -/

/-- The claim's determinant formula
`e = 4*dot(v0,v0)*dot(v1,v1) - dot(v0,v1)^2` with `v0 = p1-q0`,
`v1 = q1-p0`, spelled from the claim's words. -/
def claimE (q0 p0 p1 q1 : Pt) : ℚ :=
  4 * SVG.dot (p1 - q0) (p1 - q0) * SVG.dot (q1 - p0) (q1 - p0)
    - SVG.dot (p1 - q0) (q1 - p0) ^ 2

/-- The claim's control points: with `d = 3*(p1-p0)`,
`a0 = (2*dot(d,v0)*dot(v1,v1) - dot(d,v1)*dot(v0,v1))/e` and
`a1 = (2*dot(d,v1)*dot(v0,v0) - dot(d,v0)*dot(v0,v1))/e`, the cubic
Bezier control points `p0, p0 + a0*v0/3, p1 - a1*v1/3, p1`. -/
def claimControls (q0 p0 p1 q1 : Pt) : Pt × Pt × Pt × Pt :=
  let v0 := p1 - q0
  let v1 := q1 - p0
  let d := (3 : ℚ) * (p1 - p0)
  let e := claimE q0 p0 p1 q1
  let a0 := (2 * SVG.dot d v0 * SVG.dot v1 v1 - SVG.dot d v1 * SVG.dot v0 v1) / e
  let a1 := (2 * SVG.dot d v1 * SVG.dot v0 v0 - SVG.dot d v0 * SVG.dot v0 v1) / e
  (p0, p0 + a0 * v0 / (3 : ℚ), p1 - a1 * v1 / (3 : ℚ), p1)

theorem flatMap_chunk3 (f : ℕ → List Pt) (hf : ∀ j, (f j).length = 3) :
    ∀ (n s j : ℕ), j < n →
      (((List.range' s n).flatMap f).drop (3 * j)).take 3 = f (s + j) := by
  intro n
  induction n with
  | zero => intro s j h; omega
  | succ n ih =>
    intro s j hj
    rw [List.range'_succ, List.flatMap_cons]
    cases j with
    | zero =>
      simp only [Nat.mul_zero, List.drop_zero, Nat.add_zero]
      rw [← hf s, List.take_left]
    | succ j' =>
      rw [show 3 * (j' + 1) = (f s).length + 3 * j' from by rw [hf]; ring,
        List.drop_append]
      rw [show s + (j' + 1) = (s + 1) + j' from by ring]
      exact ih (s + 1) j' (by omega)

/-- C4: for at least 4 points and every interior index `1 ≤ i ≤ len-3`
(with the claim's determinant nonzero), `straincontrol` computes exactly
the claim's control points, and the polycurve path data for that segment
is the claim's triple `p0 + a0*v0/3, p1 - a1*v1/3, p1` at offset
`1 + 3*(i-1)` of the emitted point list. -/
theorem polycurve_segment_controls (points : List Pt) (i : ℕ)
    (h4 : 4 ≤ points.length) (hi1 : 1 ≤ i) (hi2 : i ≤ points.length - 3)
    (he : claimE (points.getD (i - 1) default) (points.getD i default)
        (points.getD (i + 1) default) (points.getD (i + 2) default) ≠ 0) :
    SVG.straincontrol (points.getD (i - 1) default) (points.getD i default)
        (points.getD (i + 1) default) (points.getD (i + 2) default)
      = claimControls (points.getD (i - 1) default) (points.getD i default)
          (points.getD (i + 1) default) (points.getD (i + 2) default)
    ∧ ((SVG.polycurveData points).drop (1 + 3 * (i - 1))).take 3
      = [(claimControls (points.getD (i - 1) default) (points.getD i default)
            (points.getD (i + 1) default) (points.getD (i + 2) default)).2.1,
         (claimControls (points.getD (i - 1) default) (points.getD i default)
            (points.getD (i + 1) default) (points.getD (i + 2) default)).2.2.1,
         (claimControls (points.getD (i - 1) default) (points.getD i default)
            (points.getD (i + 1) default) (points.getD (i + 2) default)).2.2.2] := by
  refine ⟨rfl, ?_⟩
  rw [SVG.polycurveData, show 1 + 3 * (i - 1) = 3 * (i - 1) + 1 from by ring,
    List.drop_succ_cons]
  have hchunk := flatMap_chunk3
    (fun j =>
      let r := SVG.straincontrol (points.getD (j - 1) default) (points.getD j default)
        (points.getD (j + 1) default) (points.getD (j + 2) default)
      [r.2.1, r.2.2.1, r.2.2.2])
    (fun j => rfl) (points.length - 3) 1 (i - 1) (by omega)
  rw [show (1 : ℕ) + (i - 1) = i from by omega] at hchunk
  rw [hchunk]
  rfl

/-- C4 witness: the four points (0,0), (1,0), (2,1), (3,3) at i = 1; the
determinant is 211 ≠ 0. -/
theorem polycurve_segment_controls_witness :
    SVG.straincontrol (([⟨0, 0⟩, ⟨1, 0⟩, ⟨2, 1⟩, ⟨3, 3⟩] : List Pt).getD 0 default)
        (([⟨0, 0⟩, ⟨1, 0⟩, ⟨2, 1⟩, ⟨3, 3⟩] : List Pt).getD 1 default)
        (([⟨0, 0⟩, ⟨1, 0⟩, ⟨2, 1⟩, ⟨3, 3⟩] : List Pt).getD 2 default)
        (([⟨0, 0⟩, ⟨1, 0⟩, ⟨2, 1⟩, ⟨3, 3⟩] : List Pt).getD 3 default)
      = claimControls (([⟨0, 0⟩, ⟨1, 0⟩, ⟨2, 1⟩, ⟨3, 3⟩] : List Pt).getD 0 default)
          (([⟨0, 0⟩, ⟨1, 0⟩, ⟨2, 1⟩, ⟨3, 3⟩] : List Pt).getD 1 default)
          (([⟨0, 0⟩, ⟨1, 0⟩, ⟨2, 1⟩, ⟨3, 3⟩] : List Pt).getD 2 default)
          (([⟨0, 0⟩, ⟨1, 0⟩, ⟨2, 1⟩, ⟨3, 3⟩] : List Pt).getD 3 default)
    ∧ ((SVG.polycurveData [⟨0, 0⟩, ⟨1, 0⟩, ⟨2, 1⟩, ⟨3, 3⟩]).drop (1 + 3 * (1 - 1))).take 3
      = [(claimControls (([⟨0, 0⟩, ⟨1, 0⟩, ⟨2, 1⟩, ⟨3, 3⟩] : List Pt).getD 0 default)
            (([⟨0, 0⟩, ⟨1, 0⟩, ⟨2, 1⟩, ⟨3, 3⟩] : List Pt).getD 1 default)
            (([⟨0, 0⟩, ⟨1, 0⟩, ⟨2, 1⟩, ⟨3, 3⟩] : List Pt).getD 2 default)
            (([⟨0, 0⟩, ⟨1, 0⟩, ⟨2, 1⟩, ⟨3, 3⟩] : List Pt).getD 3 default)).2.1,
         (claimControls (([⟨0, 0⟩, ⟨1, 0⟩, ⟨2, 1⟩, ⟨3, 3⟩] : List Pt).getD 0 default)
            (([⟨0, 0⟩, ⟨1, 0⟩, ⟨2, 1⟩, ⟨3, 3⟩] : List Pt).getD 1 default)
            (([⟨0, 0⟩, ⟨1, 0⟩, ⟨2, 1⟩, ⟨3, 3⟩] : List Pt).getD 2 default)
            (([⟨0, 0⟩, ⟨1, 0⟩, ⟨2, 1⟩, ⟨3, 3⟩] : List Pt).getD 3 default)).2.2.1,
         (claimControls (([⟨0, 0⟩, ⟨1, 0⟩, ⟨2, 1⟩, ⟨3, 3⟩] : List Pt).getD 0 default)
            (([⟨0, 0⟩, ⟨1, 0⟩, ⟨2, 1⟩, ⟨3, 3⟩] : List Pt).getD 1 default)
            (([⟨0, 0⟩, ⟨1, 0⟩, ⟨2, 1⟩, ⟨3, 3⟩] : List Pt).getD 2 default)
            (([⟨0, 0⟩, ⟨1, 0⟩, ⟨2, 1⟩, ⟨3, 3⟩] : List Pt).getD 3 default)).2.2.2] :=
  polycurve_segment_controls [⟨0, 0⟩, ⟨1, 0⟩, ⟨2, 1⟩, ⟨3, 3⟩] 1
    (by decide) (by decide) (by decide)
    (by show claimE ⟨0, 0⟩ ⟨1, 0⟩ ⟨2, 1⟩ ⟨3, 3⟩ ≠ 0
        norm_num [claimE, SVG.dot, Pt.sub_def])

/-! ## The coordinate-formatting round trip (`_coord`) -/
-- digit character facts
theorem charToDigit_digitChar (d : ℕ) (h : d < 10) :
    charToDigit (Nat.digitChar d) = d := by
  interval_cases d <;> decide

theorem digitChar_ne_dot (d : ℕ) (h : d < 10) : Nat.digitChar d ≠ '.' := by
  interval_cases d <;> decide

theorem digitChar_ne_dash (d : ℕ) (h : d < 10) : Nat.digitChar d ≠ '-' := by
  interval_cases d <;> decide

theorem digitChar_ne_zero_iff (d : ℕ) (h : d < 10) :
    Nat.digitChar d = '0' ↔ d = 0 := by
  interval_cases d <;> decide

theorem natChars_ne_nil (m : ℕ) : natChars m ≠ [] := by
  rw [natChars]
  split_ifs with h
  · simp
  · simp [Nat.digits_ne_nil_iff_ne_zero, h]

theorem natChars_mem_digit (m : ℕ) (c : Char) (hc : c ∈ natChars m) :
    ∃ d < 10, c = Nat.digitChar d := by
  rw [natChars] at hc
  split_ifs at hc with h
  · simp at hc
    exact ⟨0, by omega, by rw [hc]; rfl⟩
  · rw [List.mem_reverse, List.mem_map] at hc
    obtain ⟨d, hd, rfl⟩ := hc
    exact ⟨d, Nat.digits_lt_base (by omega) hd, rfl⟩

theorem charsToNat_append_one (A : List Char) (c : Char) :
    charsToNat (A ++ [c]) = 10 * charsToNat A + charToDigit c := by
  simp [charsToNat, List.foldl_append]

theorem charsToNat_natChars (m : ℕ) : charsToNat (natChars m) = m := by
  rw [natChars]
  split_ifs with h
  · simp [charsToNat, charToDigit, h]
  · have key : ∀ L : List ℕ, (∀ d ∈ L, d < 10) →
        charsToNat ((L.map Nat.digitChar).reverse) = Nat.ofDigits 10 L := by
      intro L
      induction L with
      | nil => intro _; simp [charsToNat, Nat.ofDigits_nil]
      | cons d L ih =>
        intro hL
        rw [List.map_cons, List.reverse_cons, charsToNat_append_one,
          ih (fun x hx => hL x (List.mem_cons_of_mem _ hx)),
          charToDigit_digitChar d (hL d (List.mem_cons_self _ _)),
          Nat.ofDigits_cons]
        ring
    rw [key _ (fun d hd => Nat.digits_lt_base (by omega) hd), Nat.ofDigits_digits]

theorem charsToNat_pad4 (f : ℕ) (h : f < 10000) : charsToNat (pad4 f) = f := by
  have h1 : f / 1000 % 10 < 10 := Nat.mod_lt _ (by omega)
  have h2 : f / 100 % 10 < 10 := Nat.mod_lt _ (by omega)
  have h3 : f / 10 % 10 < 10 := Nat.mod_lt _ (by omega)
  have h4 : f % 10 < 10 := Nat.mod_lt _ (by omega)
  simp only [pad4, charsToNat, List.foldl_cons, List.foldl_nil,
    charToDigit_digitChar _ h1, charToDigit_digitChar _ h2,
    charToDigit_digitChar _ h3, charToDigit_digitChar _ h4]
  omega

theorem rstrip_append_of_ne_nil (A B : List Char) (c : Char)
    (h : rstrip B c ≠ []) : rstrip (A ++ B) c = A ++ rstrip B c := by
  simp only [rstrip, List.reverse_append] at *
  rw [List.dropWhile_append]
  split_ifs with hemp
  · rw [List.isEmpty_iff] at hemp
    exact absurd (by rw [hemp]; rfl) h
  · rw [List.reverse_append, List.reverse_reverse]

theorem rstrip_eq_self_of_getLast (l : List Char) (c d : Char)
    (hl : l.getLast? = some d) (hd : d ≠ c) : rstrip l c = l := by
  rw [rstrip]
  rw [← List.head?_reverse] at hl
  cases hrev : l.reverse with
  | nil => rw [hrev] at hl; simp at hl
  | cons x xs =>
    rw [hrev] at hl
    simp only [List.head?_cons, Option.some.injEq] at hl
    rw [List.dropWhile_cons, if_neg (by simp [hl, hd]), ← hrev, List.reverse_reverse]

theorem rstrip_cons_dot (L : List Char) :
    rstrip ('.' :: L) '0'
      = if rstrip L '0' = [] then ['.'] else '.' :: rstrip L '0' := by
  split_ifs with h
  · simp only [rstrip, List.reverse_cons] at *
    rw [List.dropWhile_append, if_pos (by
      rw [List.isEmpty_iff]
      rwa [List.reverse_eq_nil_iff] at h)]
    rfl
  · rw [show ('.' :: L) = ['.'] ++ L from rfl, rstrip_append_of_ne_nil _ _ _ h]
    rfl

theorem rstrip_concat_self (A : List Char) (c : Char) :
    rstrip (A ++ [c]) c = rstrip A c := by
  simp only [rstrip, List.reverse_append, List.reverse_cons, List.reverse_nil,
    List.nil_append, List.singleton_append, List.dropWhile_cons]
  rw [if_pos (by simp)]

theorem dropWhile_head_not (p : Char → Bool) :
    ∀ (l : List Char) (x : Char) (xs : List Char),
      List.dropWhile p l = x :: xs → p x = false := by
  intro l
  induction l with
  | nil => intro x xs h; simp at h
  | cons a t ih =>
    intro x xs h
    rw [List.dropWhile_cons] at h
    split_ifs at h with ha
    · exact ih x xs h
    · injection h with h1 h2
      subst h1
      simpa using ha

theorem rstrip_getLast_ne (l : List Char) (c : Char) (h : rstrip l c ≠ []) :
    (rstrip l c).getLast? ≠ some c := by
  rw [rstrip] at *
  rw [List.getLast?_reverse]
  cases hd : List.dropWhile (fun x => x = c) l.reverse with
  | nil => rw [hd] at h; simp at h
  | cons x xs =>
    have hx := dropWhile_head_not (fun x => x = c) l.reverse x xs hd
    simp only [decide_eq_false_iff_not] at hx
    simp [hx]

theorem rstrip_mem (l : List Char) (c x : Char) (h : x ∈ rstrip l c) : x ∈ l := by
  rw [rstrip, List.mem_reverse] at h
  have := (List.dropWhile_sublist (fun y => y = c) (l := l.reverse)).mem h
  rwa [List.mem_reverse] at this

theorem fracVal_rstrip_zero (L : List Char) :
    (charsToNat (rstrip L '0') : ℚ) / 10 ^ (rstrip L '0').length
      = (charsToNat L : ℚ) / 10 ^ L.length := by
  rw [rstrip]
  generalize hR : L.reverse = R
  have hL : L = R.reverse := by rw [← hR, List.reverse_reverse]
  subst hL
  clear hR
  induction R with
  | nil => simp
  | cons c R' ih =>
    rw [List.dropWhile_cons]
    split_ifs with hc
    · simp only [decide_eq_true_eq] at hc
      subst hc
      rw [ih, List.reverse_cons, charsToNat_append_one,
        show charToDigit '0' = 0 from by decide, Nat.add_zero,
        List.length_append, List.length_reverse]
      push_cast
      rw [List.length_singleton, pow_succ,
        mul_comm ((10 : ℚ) ^ R'.length) 10,
        mul_div_mul_left _ _ (by norm_num : (10 : ℚ) ≠ 0)]
    · rfl

theorem takeWhile_not_dot_append (A B : List Char) (hA : ∀ c ∈ A, c ≠ '.') :
    (A ++ '.' :: B).takeWhile (fun c => c ≠ '.') = A
    ∧ (A ++ '.' :: B).dropWhile (fun c => c ≠ '.') = '.' :: B := by
  induction A with
  | nil => constructor <;> simp [List.takeWhile_cons, List.dropWhile_cons]
  | cons a A ih =>
    have ha : a ≠ '.' := hA a (List.mem_cons_self _ _)
    have ih' := ih (fun c hc => hA c (List.mem_cons_of_mem _ hc))
    constructor
    · rw [List.cons_append, List.takeWhile_cons, if_pos (by simpa using ha), ih'.1]
    · rw [List.cons_append, List.dropWhile_cons, if_pos (by simpa using ha), ih'.2]

theorem takeWhile_not_dot_all (A : List Char) (hA : ∀ c ∈ A, c ≠ '.') :
    A.takeWhile (fun c => c ≠ '.') = A ∧ A.dropWhile (fun c => c ≠ '.') = [] := by
  induction A with
  | nil => constructor <;> rfl
  | cons a A ih =>
    have ha : a ≠ '.' := hA a (List.mem_cons_self _ _)
    have ih' := ih (fun c hc => hA c (List.mem_cons_of_mem _ hc))
    constructor
    · rw [List.takeWhile_cons, if_pos (by simpa using ha), ih'.1]
    · rw [List.dropWhile_cons, if_pos (by simpa using ha), ih'.2]

theorem parseDec_cons_ne (c : Char) (rest : List Char) (h : c ≠ '-') :
    parseDec (c :: rest) = parseUnsigned (c :: rest) := by
  rw [parseDec, if_neg (by simp [h])]

theorem parseDec_cons_dash (rest : List Char) :
    parseDec ('-' :: rest) = - parseUnsigned rest := by
  simp [parseDec]

theorem mem_of_getLast?_eq (l : List Char) (d : Char) (h : l.getLast? = some d) :
    d ∈ l := by
  rw [← List.head?_reverse] at h
  have hm : d ∈ l.reverse := by
    cases hr : l.reverse with
    | nil => rw [hr] at h; simp at h
    | cons x xs =>
      rw [hr] at h
      simp only [List.head?_cons, Option.some.injEq] at h
      simp [h]
  rwa [List.mem_reverse] at hm

theorem pad4_mem_digit (f : ℕ) (c : Char) (hc : c ∈ pad4 f) :
    ∃ d < 10, c = Nat.digitChar d := by
  simp only [pad4, List.mem_cons, List.not_mem_nil, or_false] at hc
  rcases hc with rfl | rfl | rfl | rfl
  · exact ⟨f / 1000 % 10, Nat.mod_lt _ (by omega), rfl⟩
  · exact ⟨f / 100 % 10, Nat.mod_lt _ (by omega), rfl⟩
  · exact ⟨f / 10 % 10, Nat.mod_lt _ (by omega), rfl⟩
  · exact ⟨f % 10, Nat.mod_lt _ (by omega), rfl⟩

theorem natChars_getLast_digit (m : ℕ) :
    ∃ d < 10, (natChars m).getLast? = some (Nat.digitChar d) := by
  have hne := natChars_ne_nil m
  cases hl : (natChars m).getLast? with
  | none => rw [List.getLast?_eq_none_iff] at hl; exact absurd hl hne
  | some d =>
    obtain ⟨e, he, hc⟩ := natChars_mem_digit m d (mem_of_getLast?_eq _ _ hl)
    exact ⟨e, he, by rw [hc]⟩

theorem coordChars_eq (x : ℚ) :
    coordChars x
      = ((if round (x * 10000) < 0 then ['-'] else [])
          ++ natChars ((round (x * 10000)).natAbs / 10000))
        ++ (if rstrip (pad4 ((round (x * 10000)).natAbs % 10000)) '0' = [] then []
            else '.' :: rstrip (pad4 ((round (x * 10000)).natAbs % 10000)) '0') := by
  have hfmt : fmt4 x
      = ((if round (x * 10000) < 0 then ['-'] else [])
          ++ natChars ((round (x * 10000)).natAbs / 10000))
        ++ '.' :: pad4 ((round (x * 10000)).natAbs % 10000) := by
    rw [fmt4, List.append_assoc]
  set n := round (x * 10000) with hn
  set ip := n.natAbs / 10000 with hip
  set f := n.natAbs % 10000 with hf
  set S : List Char := (if n < 0 then ['-'] else []) ++ natChars ip with hS
  set F : List Char := rstrip (pad4 f) '0' with hF
  -- the last character of S is a digit, hence neither '.' nor '0'-strippable
  obtain ⟨d, hd10, hdlast⟩ := natChars_getLast_digit ip
  have hSlast : S.getLast? = some (Nat.digitChar d) := by
    rw [hS, getLast?_append_ne _ _ (natChars_ne_nil ip), hdlast]
  have hstep1 : rstrip (fmt4 x) '0'
      = S ++ (if F = [] then ['.'] else '.' :: F) := by
    rw [hfmt, rstrip_append_of_ne_nil _ _ _ (by
      rw [rstrip_cons_dot]
      split_ifs <;> simp), rstrip_cons_dot]
  rw [coordChars, hstep1]
  by_cases hFnil : F = []
  · rw [if_pos hFnil, if_pos hFnil, rstrip_concat_self, List.append_nil,
      rstrip_eq_self_of_getLast S '.' (Nat.digitChar d) hSlast (digitChar_ne_dot d hd10)]
  · rw [if_neg hFnil, if_neg hFnil]
    have hFlast : ∃ c, F.getLast? = some c ∧ c ≠ '.' := by
      cases hl : F.getLast? with
      | none => rw [List.getLast?_eq_none_iff] at hl; exact absurd hl hFnil
      | some c =>
        obtain ⟨e, he, hc⟩ := pad4_mem_digit f c
          (rstrip_mem (pad4 f) '0' c (mem_of_getLast?_eq _ _ hl))
        exact ⟨c, rfl, by rw [hc]; exact digitChar_ne_dot e he⟩
    obtain ⟨c, hcl, hcd⟩ := hFlast
    rw [rstrip_eq_self_of_getLast _ '.' c (by
      rw [getLast?_append_ne _ _ (by simp), getLast?_cons_ne _ _ hFnil, hcl]) hcd]

theorem parse_coordChars (x : ℚ) :
    parseDec (coordChars x) = (round (x * 10000) : ℚ) / 10000 := by
  rw [coordChars_eq]
  set n := round (x * 10000) with hn
  set ip := n.natAbs / 10000 with hip
  set f := n.natAbs % 10000 with hf
  set F : List Char := rstrip (pad4 f) '0' with hF
  have hdigits : ∀ c ∈ natChars ip, c ≠ '.' := fun c hc => by
    obtain ⟨d, hd, rfl⟩ := natChars_mem_digit ip c hc
    exact digitChar_ne_dot d hd
  have hfrac : (charsToNat F : ℚ) / 10 ^ F.length = (f : ℚ) / 10000 := by
    rw [hF, fracVal_rstrip_zero, charsToNat_pad4 f (Nat.mod_lt _ (by norm_num))]
    norm_num [pad4]
  have hsplitnat : (n.natAbs : ℚ) = 10000 * (ip : ℚ) + (f : ℚ) := by
    rw [hip, hf]
    exact_mod_cast (Nat.div_add_mod n.natAbs 10000).symm
  have hunsigned : parseUnsigned (natChars ip ++ (if F = [] then [] else '.' :: F))
      = (n.natAbs : ℚ) / 10000 := by
    by_cases hFnil : F = []
    · rw [if_pos hFnil, List.append_nil, parseUnsigned]
      obtain ⟨ht, hd⟩ := takeWhile_not_dot_all (natChars ip) hdigits
      simp only [ht, hd, List.drop_nil, List.length_nil, pow_zero]
      have hf0 : (f : ℚ) = 0 := by
        rw [hFnil, show charsToNat ([] : List Char) = 0 from rfl] at hfrac
        simp only [List.length_nil, pow_zero, Nat.cast_zero, zero_div] at hfrac
        linarith [hfrac]
      rw [show charsToNat ([] : List Char) = 0 from rfl, charsToNat_natChars,
        hsplitnat, hf0]
      push_cast
      ring
    · rw [if_neg hFnil, parseUnsigned]
      obtain ⟨ht, hd⟩ := takeWhile_not_dot_append (natChars ip) F hdigits
      simp only [ht, hd, List.drop_succ_cons, List.drop_zero]
      rw [show charsToNat (natChars ip) = ip from charsToNat_natChars ip, hfrac,
        hsplitnat]
      ring
  by_cases hneg : n < 0
  · rw [if_pos hneg,
      show (['-'] ++ natChars ip) ++ (if F = [] then [] else '.' :: F)
          = '-' :: (natChars ip ++ (if F = [] then [] else '.' :: F)) from by simp,
      parseDec_cons_dash, hunsigned]
    have habs : ((n.natAbs : ℚ)) = -(n : ℚ) := by
      rw [Int.cast_natAbs, abs_of_neg hneg]
      push_cast
      ring
    rw [habs]
    ring
  · rw [if_neg hneg]
    obtain ⟨c, rest, hcons⟩ := List.exists_cons_of_ne_nil (natChars_ne_nil ip)
    have hcd : c ≠ '-' := by
      obtain ⟨d, hd, hc⟩ := natChars_mem_digit ip c
        (by rw [hcons]; exact List.mem_cons_self _ _)
      rw [hc]
      exact digitChar_ne_dash d hd
    rw [List.nil_append, hcons, List.cons_append, parseDec_cons_ne c _ hcd,
      ← List.cons_append, ← hcons, hunsigned]
    have habs : ((n.natAbs : ℚ)) = (n : ℚ) := by
      rw [Int.cast_natAbs, abs_of_nonneg (not_lt.mp hneg)]
    rw [habs]

/-- C3: for every coordinate value, the string `_coord` produces parses
back to a number within 1e-4 absolute tolerance of the input, never ends
with a trailing `'.'`, and — whenever it contains a decimal point — never
ends with a trailing `'0'`. -/
theorem coord_roundtrip (x : ℚ) :
    |parseDec (coord x).data - x| ≤ 1 / 10000
    ∧ (coord x).data.getLast? ≠ some '.'
    ∧ ('.' ∈ (coord x).data → (coord x).data.getLast? ≠ some '0') := by
  have hdata : (coord x).data = coordChars x := rfl
  rw [hdata]
  have hval : |parseDec (coordChars x) - x| ≤ 1 / 10000 := by
    rw [parse_coordChars]
    have hr := abs_sub_round (x * 10000)
    rw [show (round (x * 10000) : ℚ) / 10000 - x
        = ((round (x * 10000) : ℚ) - x * 10000) / 10000 from by ring,
      abs_div, abs_of_pos (by norm_num : (0 : ℚ) < 10000), abs_sub_comm]
    linarith
  have hchars : (coordChars x).getLast? ≠ some '.'
      ∧ ('.' ∈ coordChars x → (coordChars x).getLast? ≠ some '0') := by
    rw [coordChars_eq]
    set n := round (x * 10000) with hn
    set ip := n.natAbs / 10000 with hip
    set f := n.natAbs % 10000 with hf
    set F : List Char := rstrip (pad4 f) '0' with hF
    set S : List Char := (if n < 0 then ['-'] else []) ++ natChars ip with hS
    obtain ⟨d, hd10, hdlast⟩ := natChars_getLast_digit ip
    have hSlast : S.getLast? = some (Nat.digitChar d) := by
      rw [hS, getLast?_append_ne _ _ (natChars_ne_nil ip), hdlast]
    by_cases hFnil : F = []
    · rw [if_pos hFnil, List.append_nil]
      constructor
      · rw [hSlast]
        simp [digitChar_ne_dot d hd10]
      · intro hdot
        exfalso
        rw [hS, List.mem_append] at hdot
        rcases hdot with h | h
        · revert h
          split_ifs
          · rw [List.mem_singleton]
            exact fun h => absurd h (by decide)
          · simp
        · obtain ⟨e, he, hc⟩ := natChars_mem_digit ip '.' h
          exact digitChar_ne_dot e he hc.symm
    · rw [if_neg hFnil]
      have hlastF : (S ++ '.' :: F).getLast? = F.getLast? := by
        rw [getLast?_append_ne _ _ (by simp), getLast?_cons_ne _ _ hFnil]
      constructor
      · rw [hlastF]
        cases hl : F.getLast? with
        | none => simp
        | some c =>
          obtain ⟨e, he, hc⟩ := pad4_mem_digit f c
            (rstrip_mem _ _ _ (mem_of_getLast?_eq _ _ hl))
          intro hcc
          rw [Option.some.injEq] at hcc
          rw [hc] at hcc
          exact digitChar_ne_dot e he hcc
      · intro _
        rw [hlastF, hF]
        exact rstrip_getLast_ne (pad4 f) '0' (by rw [← hF]; exact hFnil)
  exact ⟨hval, hchars.1, hchars.2⟩
